import Mathlib

/-
Verification of the grouping and aggregation engine of the
geographical-entities service (src/main.py, src/models.py).

The store is modelled as a list of Location records; the primary key `id`
is unique in any real database state, so ORM row updates become pointwise
`List.map` updates keyed on `id`.  The engine-opaque payload columns
(`location_info`, `geolocation`) are never read or written by the modelled
operations and are omitted from the record.
-/

namespace GeoEntities

/-- A row of the `locations` table (models.py `Location`). -/
structure Location where
  id : Nat
  name : String
  type_ : String
  citations : Int
  total_citations : Option Int
  group : Option Nat
  deriving DecidableEq, Repr

/-- The store: all Location rows. -/
abbrev State := List Location

/-- Python truthiness of an optional integer column (`if g.group:`):
`None` and `0` are falsy. -/
def truthyN : Option Nat → Bool
  | none => false
  | some n => n != 0

/-- Sum of `citations` over the rows whose `group` column equals `gid`
(main.py line 79-80: `db.query(Location).filter(Location.group == group_id)`). -/
def directMemberSum (s : State) (gid : Nat) : Int :=
  ((s.filter (fun l => l.group == some gid)).map Location.citations).sum

/-- main.py `update_total_citations` (lines 77-85): recompute the aggregate
for a group id.  Returns the mutated store and the member-sum that the
Python function returns.  The row write `group_entity.total_citations = ...`
is the pointwise update of the unique row with that primary key. -/
def update_total_citations (s : State) (group_id : Nat) : State × Int :=
  let total := directMemberSum s group_id
  match s.find? (fun l => l.id == group_id) with
  | some _ =>
      (s.map (fun l =>
        if l.id == group_id then
          { l with total_citations := some (total + l.citations) }
        else l), total)
  | none => (s, total)

/-- Whitespace characters stripped by Python `str.strip()` (ASCII range). -/
def isSpaceChar (c : Char) : Bool :=
  c == ' ' || c == '\t' || c == '\n' || c == '\r' || c == '\x0b' || c == '\x0c'

/-- Python `str.strip()` on a character list. -/
def trimChars (cs : List Char) : List Char :=
  ((cs.dropWhile isSpaceChar).reverse.dropWhile isSpaceChar).reverse

/-- Loop body of main.py `smart_split` (lines 33-53): accumulates finished
parts, the pending characters and the parenthesis depth.  `max(depth-1, 0)`
is truncated subtraction on `Nat`. -/
def smart_split_core : List Char → List (List Char) → List Char → Nat → List (List Char)
  | [], parts, current, _ =>
      let part := trimChars current
      if part.isEmpty then parts else parts ++ [part]
  | c :: cs, parts, current, depth =>
      if c == ',' && depth == 0 then
        let part := trimChars current
        smart_split_core cs (if part.isEmpty then parts else parts ++ [part]) [] depth
      else
        let depth2 := if c == '(' then depth + 1 else if c == ')' then depth - 1 else depth
        smart_split_core cs parts (current ++ [c]) depth2

/-- main.py `smart_split` (lines 28-55). -/
def smart_split (line : String) : List String :=
  (smart_split_core line.toList [] [] 0).map String.mk

/-- Specification-side splitter, following the spec's words (§4.1): cut the
raw line at exactly the commas that occur at parenthesis-nesting depth 0,
where the depth counter increments on `(`, decrements on `)` and never goes
below zero; no trimming, no dropping. -/
def splitDepth0 : List Char → Nat → List (List Char)
  | [], _ => [[]]
  | c :: cs, depth =>
      if c == ',' && depth == 0 then [] :: splitDepth0 cs depth
      else
        let depth2 := if c == '(' then depth + 1 else if c == ')' then depth - 1 else depth
        match splitDepth0 cs depth2 with
        | [] => [[c]]
        | p :: ps => (c :: p) :: ps

/-- Split a reference at its last hyphen (Python `ref.rsplit("-", 1)`);
`none` when the string has no hyphen (`"-" not in ref`). -/
def rsplitHyphen : List Char → Option (List Char × List Char)
  | [] => none
  | c :: rest =>
      match rsplitHyphen rest with
      | some (pre, post) => some (c :: pre, post)
      | none => if c == '-' then some ([], rest) else none

/-- Python `str.capitalize()`: first character upper-cased, rest lower-cased. -/
def capFirst (str : String) : String :=
  match str.toList with
  | [] => ""
  | c :: rest => String.mk (c.toUpper :: rest.map Char.toLower)

/-- main.py `get_location_by_ref` (lines 57-74): parse a `name-type`
reference, look the pair up, and append an error message on failure.
(The quote characters of the Python messages are elided.) -/
def get_location_by_ref (s : State) (ref : String) (role : String)
    (errors : List String) : Option Location × List String :=
  match rsplitHyphen ref.toList with
  | none =>
      (none, errors ++ ["Invalid format for " ++ role ++ " " ++ ref ++ " (expected name-type)"])
  | some (pre, post) =>
      match s.find? (fun l => l.name == String.mk pre && l.type_ == String.mk post) with
      | some loc => (some loc, errors)
      | none => (none, errors ++ [capFirst role ++ " " ++ ref ++ " not found in DB"])

/-- The pure lookup component of `get_location_by_ref` (role only affects
the error message). -/
def refLoc (s : State) (ref : String) : Option Location :=
  match rsplitHyphen ref.toList with
  | none => none
  | some (pre, post) =>
      s.find? (fun l => l.name == String.mk pre && l.type_ == String.mk post)

/-- Id of the Location a reference resolves to, if any. -/
def refIdOf (s : State) (ref : String) : Option Nat :=
  (refLoc s ref).map Location.id

/-- Accumulator of the `load_groups` request handler: current store,
`updated_count`, `errors`, and the `leader_ids` set (kept as a
duplicate-free list; the recompute loop is order-insensitive). -/
structure LGState where
  s : State
  updated : Nat
  errors : List String
  leaders : List Nat
  deriving DecidableEq, Repr

/-- Set-insert for the `leader_ids` set. -/
def insertUniq (xs : List Nat) (x : Nat) : List Nat :=
  if x ∈ xs then xs else xs ++ [x]

/-- ORM write `member.group = leader.id`: pointwise update of the row whose
primary key is `mid`. -/
def setGroup (s : State) (mid gid : Nat) : State :=
  s.map (fun l => if l.id == mid then { l with group := some gid } else l)

/-- main.py lines 241-248: process one member reference of a group line. -/
def processMember (leaderId : Nat) (st : LGState) (ref : String) : LGState :=
  match get_location_by_ref st.s ref "member" st.errors with
  | (none, errs) => { st with errors := errs }
  | (some member, errs) =>
      if member.id != leaderId then
        { st with
            s := setGroup st.s member.id leaderId
            updated := st.updated + 1
            errors := errs }
      else
        { st with errors := errs }

/-- main.py lines 227-250: process one manifest line. -/
def processLine (st : LGState) (line : String) : LGState :=
  match smart_split line with
  | lref :: mref :: mrefs =>
      match get_location_by_ref st.s lref "leader" st.errors with
      | (none, errs) => { st with errors := errs }
      | (some leader, errs) =>
          let st2 := (mref :: mrefs).foldl (processMember leader.id) { st with errors := errs }
          { st2 with leaders := insertUniq st2.leaders leader.id }
  | _ =>
      { st with errors := st.errors ++ ["Invalid group line (needs at least 2 items): " ++ line] }

/-- Python `str.splitlines` restricted to newline-separated text. -/
def splitOnNl : List Char → List (List Char)
  | [] => [[]]
  | c :: cs =>
      if c == '\n' then [] :: splitOnNl cs
      else
        match splitOnNl cs with
        | [] => [[c]]
        | p :: ps => (c :: p) :: ps

/-- main.py line 220: stripped, non-blank manifest lines. -/
def linesOf (content : String) : List String :=
  (((splitOnNl content.toList).map trimChars).filter (fun l => !l.isEmpty)).map String.mk

/-- The final recompute loop of `load_groups` (lines 255-256). -/
def recomputeAll (s : State) (gids : List Nat) : State :=
  gids.foldl (fun acc gid => (update_total_citations acc gid).1) s

/-- main.py `load_groups` (lines 213-264): run every line, then recompute
the aggregate of every collected leader id. -/
def load_groups (s : State) (content : String) : LGState :=
  let st := (linesOf content).foldl processLine { s := s, updated := 0, errors := [], leaders := [] }
  { st with s := recomputeAll st.s st.leaders }

/-- Re-pointing step of `update_group` (line 298):
`db.query(Location).filter(Location.group == f.id).update({"group": new_group_id})`. -/
def repointStep (s : State) (fid ngid : Nat) : State :=
  s.map (fun l => if l.group == some fid then { l with group := some ngid } else l)

/-- Loser update of `update_group` (lines 301-302): `f.group = new_group_id;
f.total_citations = None`, a pointwise write of the row with id `fid`. -/
def loserStep (s : State) (fid ngid : Nat) : State :=
  s.map (fun l =>
    if l.id == fid then { l with group := some ngid, total_citations := none } else l)

/-- main.py `update_group` (lines 272-321).  `none` models the 404 raised
when either id is missing; otherwise the result carries the final store and
the response fields `f`, `g`, `old_group_updated`. -/
def update_group (s : State) (id1 id2 : Nat) : Option (State × Nat × Nat × Bool) :=
  match s.find? (fun l => l.id == id1), s.find? (fun l => l.id == id2) with
  | some loc1, some loc2 =>
      let fg := if loc1.citations < loc2.citations then (loc1, loc2) else (loc2, loc1)
      let f := fg.1
      let g := fg.2
      let old_group_id := f.group
      let new_group_id := if truthyN g.group then g.group.getD g.id else g.id
      let s1 := repointStep s f.id new_group_id
      let s2 := loserStep s1 f.id new_group_id
      let s3 := (update_total_citations s2 new_group_id).1
      let s4 :=
        if truthyN old_group_id then (update_total_citations s3 (old_group_id.getD 0)).1
        else s3
      some (s4, f.id, g.id, old_group_id.isSome)
  | _, _ => none

/-- Root test used by the invariant claims: `gid` is referenced by the
`group` column of at least one other row. -/
def isRoot (s : State) (gid : Nat) : Bool :=
  s.any (fun l => l.group == some gid && l.id != gid)

/-- The spec's quiescent-root equation (§3): the stored aggregate equals the
row's own citations plus the citations of its direct members. -/
def rootOk (s : State) (r : Location) : Prop :=
  r.total_citations = some (r.citations + directMemberSum s r.id)

/-- Prepend pending characters onto the first field of a split. -/
def consHead (pre : List Char) : List (List Char) → List (List Char)
  | [] => [pre]
  | p :: ps => (pre ++ p) :: ps

/-- Row functions that keep the ingestion-immutable columns
(`id`, `name`, `type`, `citations`); every engine mutation is one. -/
def SkelPres (φ : Location → Location) : Prop :=
  ∀ l, (φ l).id = l.id ∧ (φ l).name = l.name ∧ (φ l).type_ = l.type_ ∧
    (φ l).citations = l.citations

/-- Replay a list of `(member id, leader id)` group writes. -/
def applyAsg (s : State) (t : List (Nat × Nat)) : State :=
  t.foldl (fun acc p => setGroup acc p.1 p.2) s

/-- Final `group` value of the row with id `d` after replaying `t` over an
initial value `g0`. -/
def traceGroup (t : List (Nat × Nat)) (d : Nat) (g0 : Option Nat) : Option Nat :=
  t.foldl (fun g p => if d == p.1 then some p.2 else g) g0

/-- Last leader id written to row `d` by the trace, if any. -/
def lastHit (t : List (Nat × Nat)) (d : Nat) : Option Nat :=
  t.foldl (fun g p => if d == p.1 then some p.2 else g) none

/-- The group writes one manifest line's member list produces, resolved
against store `s`. -/
def memberAsg (s : State) (lid : Nat) (refs : List String) : List (Nat × Nat) :=
  (refs.map (fun r =>
    match refIdOf s r with
    | some m => if m != lid then [(m, lid)] else []
    | none => [])).flatten

/-- The group writes one manifest line produces, resolved against `s`. -/
def lineAsg (s : State) (line : String) : List (Nat × Nat) :=
  match smart_split line with
  | lref :: mref :: mrefs =>
      match refIdOf s lref with
      | some lid => memberAsg s lid (mref :: mrefs)
      | none => []
  | _ => []

/-- All group writes of a manifest, resolved against `s`. -/
def asgOf (s : State) (content : String) : List (Nat × Nat) :=
  ((linesOf content).map (lineAsg s)).flatten

/-- Resolved leader id of a manifest line with at least two fields. -/
def lineLeaderId (s : State) (line : String) : Option Nat :=
  match smart_split line with
  | lref :: _ :: _ => refIdOf s lref
  | _ => none

/-- Accumulate the leader-id set of one line. -/
def leaderStep (s : State) (acc : List Nat) (line : String) : List Nat :=
  match lineLeaderId s line with
  | some i => insertUniq acc i
  | none => acc

/-- The distinct resolved leader ids of a whole manifest, in first-seen
order. -/
def leadersOf (s : State) (content : String) : List Nat :=
  (linesOf content).foldl (leaderStep s) []

/-- Trim-and-drop postprocessing that `smart_split` applies to each raw
field. -/
def postSplit (fields : List (List Char)) : List (List Char) :=
  (fields.map trimChars).filter (fun p => !p.isEmpty)

/-- Pointwise form of replaying a trace (proved below). -/
def asgFun (t : List (Nat × Nat)) (l : Location) : Location :=
  { l with group := traceGroup t l.id l.group }

/-- Pointwise form of one aggregate recomputation (proved below). -/
def utcFun (s : State) (gid : Nat) (l : Location) : Location :=
  if (s.find? (fun e => e.id == gid)).isSome && l.id == gid then
    { l with total_citations := some (directMemberSum s gid + l.citations) }
  else l

/-- Pointwise form of the final recompute loop (proved below). -/
def rfFun (s : State) (gids : List Nat) (l : Location) : Location :=
  if gids.contains l.id then
    { l with total_citations := some (directMemberSum s l.id + l.citations) }
  else l

/-- Pointwise form of the two row-mutation steps of `update_group`
(re-point the `f`-subtree, then demote `f`). -/
def mergeRowFun (fid ngid : Nat) (l : Location) : Location :=
  if l.id == fid then { l with group := some ngid, total_citations := none }
  else if l.group == some fid then { l with group := some ngid }
  else l

/-- `new_group_id` of `update_group` (lines 292-295). -/
def mergeN (g : Location) : Nat :=
  if truthyN g.group then g.group.getD g.id else g.id

/-- The store produced by `update_group` once the loser `f` and winner `g`
are fixed (lines 289-312), with the two row-mutation steps fused into
`mergeRowFun` (see `merge_rows`). -/
def mergeResult (s : State) (f g : Location) : State :=
  let s2 := s.map (mergeRowFun f.id (mergeN g))
  let s3 := (update_total_citations s2 (mergeN g)).1
  if truthyN f.group then (update_total_citations s3 (f.group.getD 0)).1 else s3

/- Concrete stores used by the counterexamples and witnesses. -/

def demoC1 : State :=
  [⟨1, "A", "City", 10, some 10, none⟩, ⟨2, "B", "City", 5, some 5, none⟩,
   ⟨3, "C", "City", 3, some 3, none⟩, ⟨4, "D", "City", 7, some 7, none⟩]

/-- Quiescent store reached from `demoC1` by the manifest
`A-City, B-City, C-City`. -/
def c1Mid : State := (load_groups demoC1 "A-City, B-City, C-City").s

/-- Store after the second manifest `D-City, B-City` steals member B. -/
def c1Fin : State := (load_groups c1Mid "D-City, B-City").s

def c1DemoPre : State :=
  [⟨1, "A", "City", 10, some 15, none⟩, ⟨2, "B", "City", 5, some 5, some 1⟩,
   ⟨3, "C", "City", 20, some 20, none⟩]

def demoC2 : State :=
  [⟨1, "F", "City", 5, some 5, none⟩, ⟨2, "G", "City", 9, some 14, some 1⟩]

def demoC2b : State := [⟨1, "F", "City", 5, some 5, none⟩]

def demoC3 : State :=
  [⟨1, "A", "City", 5, some 5, none⟩, ⟨2, "B", "City", 5, some 5, none⟩]

def demoC3w : State :=
  [⟨1, "A", "City", 3, some 3, none⟩, ⟨2, "B", "City", 7, some 7, none⟩]

def demoC4 : State :=
  [⟨1, "A", "City", 10, some 10, none⟩, ⟨2, "B", "City", 5, some 5, none⟩]

def demoC4w : State :=
  [⟨1, "F", "City", 5, some 5, none⟩, ⟨2, "G", "City", 9, some 9, none⟩]

def demoC5 : State :=
  [⟨1, "F", "City", 5, some 5, none⟩, ⟨2, "G", "City", 9, some 14, some 1⟩]

def demoC5w : State :=
  [⟨1, "F", "City", 5, some 5, none⟩, ⟨2, "G", "City", 9, some 9, some 3⟩,
   ⟨3, "H", "City", 20, some 29, none⟩]

def demoC6 : State :=
  [⟨1, "A", "City", 10, some 0, none⟩, ⟨2, "B", "City", 8, some 8, some 1⟩]

def demoC7 : State := [⟨1, "A", "City", 10, some 99, none⟩]

def demoC10 : State := [⟨1, "A", "City", 10, some 10, none⟩]

/-- Expected store after `update_group c1DemoPre 1 3`. -/
def c1MergedOut : State :=
  [⟨1, "A", "City", 10, none, some 3⟩, ⟨2, "B", "City", 5, some 5, some 3⟩,
   ⟨3, "C", "City", 20, some 35, none⟩]

/- ------------------------------------------------------------------ -/
/- Theorems.                                                           -/
/- ------------------------------------------------------------------ -/

lemma splitDepth0_ne_nil : ∀ (cs : List Char) (d : Nat), splitDepth0 cs d ≠ []
  | [], _ => by simp [splitDepth0]
  | _ :: _, _ => by
      simp only [splitDepth0]
      split
      · simp
      · split <;> simp

lemma consHead_nil (L : List (List Char)) (h : L ≠ []) : consHead [] L = L := by
  cases L with
  | nil => exact absurd rfl h
  | cons p ps => simp [consHead]

lemma postSplit_nil : postSplit [] = [] := by
  simp [postSplit]

lemma postSplit_cons (p : List Char) (ps : List (List Char)) :
    postSplit (p :: ps) =
      (if (trimChars p).isEmpty then [] else [trimChars p]) ++ postSplit ps := by
  by_cases h : (trimChars p).isEmpty <;> simp [postSplit, List.filter_cons, h]

lemma smart_split_core_eq :
    ∀ (cs : List Char) (parts : List (List Char)) (current : List Char) (depth : Nat),
      smart_split_core cs parts current depth =
        parts ++ postSplit (consHead current (splitDepth0 cs depth))
  | [], parts, current, depth => by
      simp only [smart_split_core, splitDepth0, consHead, List.append_nil]
      rw [postSplit_cons, postSplit_nil]
      by_cases h : (trimChars current).isEmpty <;> simp [h]
  | c :: cs, parts, current, depth => by
      simp only [smart_split_core, splitDepth0]
      by_cases h : (c == ',' && depth == 0) = true
      · simp only [if_pos h]
        rw [smart_split_core_eq cs _ [] depth]
        rw [consHead_nil _ (splitDepth0_ne_nil _ _)]
        simp only [consHead, List.append_nil]
        rw [postSplit_cons]
        by_cases he : (trimChars current).isEmpty <;> simp [he, List.append_assoc]
      · simp only [if_neg h]
        rw [smart_split_core_eq cs parts (current ++ [c])
          (if c == '(' then depth + 1 else if c == ')' then depth - 1 else depth)]
        rcases hs : splitDepth0 cs (if c == '(' then depth + 1
            else if c == ')' then depth - 1 else depth) with _ | ⟨p, ps⟩
        · exact absurd hs (splitDepth0_ne_nil _ _)
        · dsimp only
          simp only [consHead, List.append_assoc, List.singleton_append]

/-- C8: `smart_split` is exactly: cut the line at the commas lying at
parenthesis-nesting depth 0 (depth up on `(`, down on `)`, floored at 0),
then trim each field and drop the fields that become empty; and the
spec's concrete example splits as required. -/
theorem c8_depth0_split (line : String) :
    smart_split line =
      (((splitDepth0 line.toList 0).map trimChars).filter (fun p => !p.isEmpty)).map
        String.mk ∧
    smart_split "Alpha-City, Beta (X, Y)-Region" = ["Alpha-City", "Beta (X, Y)-Region"] := by
  refine ⟨?_, by decide⟩
  unfold smart_split
  rw [smart_split_core_eq, consHead_nil _ (splitDepth0_ne_nil _ _), List.nil_append]
  rfl

/-- C6: the recompute operation returns the member-sum (citations of the
rows whose `group` is exactly the given id — direct members only), is a
pure no-op on the store when the id resolves to no row, and otherwise
rewrites only the root row, persisting member-sum + own citations. -/
theorem c6_recompute (s : State) (gid : Nat) :
    (update_total_citations s gid).2 = directMemberSum s gid ∧
    (s.find? (fun l => l.id == gid) = none → (update_total_citations s gid).1 = s) ∧
    (∀ ge, s.find? (fun l => l.id == gid) = some ge →
      (update_total_citations s gid).1 =
        s.map (fun l =>
          if l.id == gid then
            { l with total_citations := some (directMemberSum s gid + l.citations) }
          else l)) := by
  refine ⟨?_, ?_, ?_⟩
  · simp only [update_total_citations]
    rcases h : s.find? (fun l => l.id == gid) with _ | ge <;> simp [h]
  · intro h; simp [update_total_citations, h]
  · intro ge hge; simp [update_total_citations, hge]

theorem c6_recompute_witness :
    (update_total_citations demoC6 1).1 =
      [⟨1, "A", "City", 10, some 18, none⟩, ⟨2, "B", "City", 8, some 8, some 1⟩] ∧
    (update_total_citations demoC6 5).1 = demoC6 ∧
    (update_total_citations demoC6 1).2 = 8 := by
  refine ⟨?_, (c6_recompute demoC6 5).2.1 (by decide), ?_⟩
  · have h := (c6_recompute demoC6 1).2.2 ⟨1, "A", "City", 10, some 0, none⟩ (by decide)
    rw [h]; decide
  · have h := (c6_recompute demoC6 1).1
    rw [h]; decide

lemma rsplitHyphen_none_iff (cs : List Char) :
    rsplitHyphen cs = none ↔ cs.contains '-' = false := by
  induction cs with
  | nil => simp [rsplitHyphen]
  | cons c rest ih =>
      rcases h : rsplitHyphen rest with _ | ⟨pre, post⟩
      · have hrest : rest.contains '-' = false := ih.mp h
        have hmem : ¬ '-' ∈ rest := by simpa using hrest
        by_cases hc : c = '-'
        · subst hc
          simp [rsplitHyphen, h, List.contains_cons]
        · simp [rsplitHyphen, h, List.contains_cons, hc, Ne.symm hc, hmem]
      · have hrest : rest.contains '-' = true := by
          by_contra hr
          simp only [Bool.not_eq_true] at hr
          rw [ih.mpr hr] at h
          exact Option.noConfusion h
        have hmem : '-' ∈ rest := by simpa using hrest
        simp [rsplitHyphen, h, List.contains_cons, hmem]

/-- C10: a reference without a hyphen, or an unresolved `(name, type)`
pair, only appends a readable error string and resolves to nothing; a line
whose leader fails to resolve leaves the store, the update counter and the
leader set untouched (only its error is recorded); and the fold over the
manifest always continues with the remaining lines. -/
theorem c10_partial_failure :
    (∀ (s : State) (ref role : String) (errs : List String),
      ref.toList.contains '-' = false →
      get_location_by_ref s ref role errs =
        (none, errs ++ ["Invalid format for " ++ role ++ " " ++ ref ++ " (expected name-type)"])) ∧
    (∀ (s : State) (ref role : String) (errs : List String) (pre post : List Char),
      rsplitHyphen ref.toList = some (pre, post) →
      s.find? (fun l => l.name == String.mk pre && l.type_ == String.mk post) = none →
      get_location_by_ref s ref role errs =
        (none, errs ++ [capFirst role ++ " " ++ ref ++ " not found in DB"])) ∧
    (∀ (st : LGState) (line lref : String) (mrefs : List String),
      smart_split line = lref :: mrefs → mrefs ≠ [] →
      (get_location_by_ref st.s lref "leader" st.errors).1 = none →
      processLine st line =
        { st with errors := (get_location_by_ref st.s lref "leader" st.errors).2 }) ∧
    (∀ (st : LGState) (line : String) (rest : List String),
      (line :: rest).foldl processLine st = rest.foldl processLine (processLine st line)) := by
  refine ⟨?_, ?_, ?_, ?_⟩
  · intro s ref role errs h
    have hn : rsplitHyphen ref.toList = none := (rsplitHyphen_none_iff _).mpr h
    unfold get_location_by_ref
    rw [hn]
  · intro s ref role errs pre post hsp hfind
    unfold get_location_by_ref
    rw [hsp]
    dsimp only
    rw [hfind]
  · intro st line lref mrefs hsplit hne hnone
    rcases mrefs with _ | ⟨m, ms⟩
    · exact absurd rfl hne
    · rcases hp : get_location_by_ref st.s lref "leader" st.errors with ⟨o, e⟩
      rw [hp] at hnone
      simp only at hnone
      subst hnone
      simp [processLine, hsplit, hp]
  · intro st line rest
    simp [List.foldl_cons]

theorem c10_partial_failure_witness :
    get_location_by_ref demoC10 "NoHyphen" "leader" [] =
      (none, ["Invalid format for leader NoHyphen (expected name-type)"]) ∧
    get_location_by_ref demoC10 "Zzz-City" "member" [] =
      (none, ["Member Zzz-City not found in DB"]) ∧
    processLine ⟨demoC10, 0, [], []⟩ "Qqq-City, A-City" =
      ⟨demoC10, 0, ["Leader Qqq-City not found in DB"], []⟩ := by
  refine ⟨?_, ?_, ?_⟩
  · have h := c10_partial_failure.1 demoC10 "NoHyphen" "leader" [] (by decide)
    simpa using h
  · have h := c10_partial_failure.2.1 demoC10 "Zzz-City" "member" []
      "Zzz".toList "City".toList (by decide) (by decide)
    simpa using h
  · have h := c10_partial_failure.2.2.1 ⟨demoC10, 0, [], []⟩ "Qqq-City, A-City"
      "Qqq-City" ["A-City"] (by decide) (by simp) (by decide)
    rw [h]; decide

/-- C1 counterexample: starting from a fresh ingest, the manifest
`A-City, B-City, C-City` makes A a quiescent root with total 18; the later
manifest `D-City, B-City` steals member B but never recomputes A, so A is
still a root (C points at it) whose stored total 18 differs from
`citations + direct member sum = 10 + 3`. -/
theorem c1_counterexample :
    isRoot c1Fin 1 = true ∧
    c1Fin.find? (fun l => l.id == 1) = some ⟨1, "A", "City", 10, some 18, none⟩ ∧
    ¬ ((18 : Int) = 10 + directMemberSum c1Fin 1) := by
  refine ⟨by decide, by decide, ?_⟩
  have h : directMemberSum c1Fin 1 = 3 := by decide
  rw [h]
  decide

/-- C2: the merge endpoint creates a self-loop — with the winner already
pointing at the loser (`g.group == f.id`), and also when `id1 = id2`,
the final store contains a row whose `group` equals its own `id`, so the
group relation no longer terminates. -/
theorem c2_self_loop_bug :
    (update_group demoC2 1 2).map
      (fun o => (o.1.find? (fun l => l.group == some l.id)).isSome) = some true ∧
    (update_group demoC2b 1 1).map
      (fun o => (o.1.find? (fun l => l.group == some l.id)).isSome) = some true := by
  constructor <;> decide

/-- C3 counterexample: with equal citations (both 5), the code takes the
`else` branch, so the loser `f` is the record of `id2`, not `id1` as the
claim states. -/
theorem c3_counterexample :
    (update_group demoC3 1 2).map (fun o => o.2.1) = some 2 ∧
    ¬ (update_group demoC3 1 2).map (fun o => o.2.1) = some 1 := by
  constructor <;> decide

/-- C3 amended: the loser is the record with strictly fewer citations; on a
tie the comparison `citations(id1) < citations(id2)` is false, so `id2`'s
record is the loser and `id1`'s record is the winner. -/
theorem c3_tiebreak (s : State) (id1 id2 : Nat) (loc1 loc2 : Location)
    (h1 : s.find? (fun l => l.id == id1) = some loc1)
    (h2 : s.find? (fun l => l.id == id2) = some loc2) :
    (update_group s id1 id2).map (fun o => (o.2.1, o.2.2.1)) =
      some (if loc1.citations < loc2.citations then (loc1.id, loc2.id)
            else (loc2.id, loc1.id)) := by
  simp only [update_group, h1, h2]
  by_cases hc : loc1.citations < loc2.citations <;> simp [hc]

theorem c3_tiebreak_witness :
    (update_group demoC3w 1 2).map (fun o => (o.2.1, o.2.2.1)) = some (1, 2) := by
  have h := c3_tiebreak demoC3w 1 2 ⟨1, "A", "City", 3, some 3, none⟩
    ⟨2, "B", "City", 7, some 7, none⟩ (by decide) (by decide)
  rw [h]
  decide

/-- C4 counterexample: `load_groups` re-points member B at leader A but
leaves B's `total_citations` at its previous value (`some 5`), not `None`;
indeed every re-pointed member keeps a non-`None` total. -/
theorem c4_counterexample :
    (load_groups demoC4 "A-City, B-City").s.find? (fun l => l.id == 2) =
      some ⟨2, "B", "City", 5, some 5, some 1⟩ ∧
    ((load_groups demoC4 "A-City, B-City").s.filter (fun l => l.group == some 1)).all
      (fun l => l.total_citations != none) = true := by
  constructor <;> decide

/-- C5 counterexample: when the winner G already points at the loser F
(`g.group = f.id = 1`), the merge sets `new_group_id = 1 = f.id` and the
follow-up recomputation immediately re-fills F's `total_citations`
(`some 19`), so the loser's total is not absent after the operation. -/
theorem c5_counterexample :
    (update_group demoC5 1 2).map
      (fun o => (o.1.find? (fun l => l.id == o.2.1), o.2.1, o.2.2.1)) =
      some (some ⟨1, "F", "City", 5, some 19, some 1⟩, 1, 2) ∧
    some (19 : Int) ≠ (none : Option Int) := by
  constructor <;> decide

/-- C7 counterexample: the line `A-City, Zzz-City` resolves its leader but
produces zero member updates (the member is unknown), yet leader id 1 is
recorded for recomputation and its stale total 99 is overwritten with 10. -/
theorem c7_counterexample :
    (load_groups demoC7 "A-City, Zzz-City").updated = 0 ∧
    (load_groups demoC7 "A-City, Zzz-City").leaders = [1] ∧
    (load_groups demoC7 "A-City, Zzz-City").s.find? (fun l => l.id == 1) =
      some ⟨1, "A", "City", 10, some 10, none⟩ := by
  refine ⟨by decide, by decide, by decide⟩

/- Generic helper lemmas about the pointwise store updates. -/

lemma skelPres_id : SkelPres (fun l => l) := fun _ => ⟨rfl, rfl, rfl, rfl⟩

lemma skelPres_comp {φ ψ : Location → Location} (hφ : SkelPres φ) (hψ : SkelPres ψ) :
    SkelPres (fun l => ψ (φ l)) := by
  intro l
  rcases hψ (φ l) with ⟨a, b, c, d⟩
  rcases hφ l with ⟨a2, b2, c2, d2⟩
  exact ⟨a.trans a2, b.trans b2, c.trans c2, d.trans d2⟩

lemma find?_map_pres (φ : Location → Location) (p q : Location → Bool)
    (hpq : ∀ l, p (φ l) = q l) :
    ∀ s : State, (s.map φ).find? p = (s.find? q).map φ := by
  intro s
  induction s with
  | nil => rfl
  | cons l t ih =>
      cases hq : q l
      · rw [List.map_cons, List.find?_cons_of_neg _ (by rw [hpq]; simp [hq]),
          List.find?_cons_of_neg _ (by simp [hq]), ih]
      · rw [List.map_cons, List.find?_cons_of_pos _ (by rw [hpq]; exact hq),
          List.find?_cons_of_pos _ hq, Option.map_some']

lemma id_unique (s : State) (hnd : (s.map Location.id).Nodup) :
    ∀ {a b : Location}, a ∈ s → b ∈ s → a.id = b.id → a = b := by
  induction s with
  | nil => intro a b ha; exact absurd ha (List.not_mem_nil a)
  | cons x t ih =>
      intro a b ha hb hab
      rw [List.map_cons, List.nodup_cons] at hnd
      rcases List.mem_cons.mp ha with ha1 | ha2 <;>
        rcases List.mem_cons.mp hb with hb1 | hb2
      · rw [ha1, hb1]
      · subst ha1
        exact absurd (hab ▸ List.mem_map_of_mem Location.id hb2) hnd.1
      · subst hb1
        exact absurd (hab ▸ List.mem_map_of_mem Location.id ha2) hnd.1
      · exact ih hnd.2 ha2 hb2 hab

lemma forall₂_map_self (R : Location → Location → Prop) (f : Location → Location) :
    ∀ s : State, (∀ x ∈ s, R x (f x)) → List.Forall₂ R s (s.map f) := by
  intro s
  induction s with
  | nil => intro; exact List.Forall₂.nil
  | cons x t ih =>
      intro h
      exact List.Forall₂.cons (h x (List.mem_cons_self x t))
        (ih fun y hy => h y (List.mem_cons_of_mem x hy))

/- Direct-member-sum lemmas. -/

lemma dms_nil (gid : Nat) : directMemberSum [] gid = 0 := rfl

lemma dms_cons (l : Location) (s : State) (gid : Nat) :
    directMemberSum (l :: s) gid =
      (if l.group == some gid then l.citations else 0) + directMemberSum s gid := by
  by_cases h : (l.group == some gid) = true <;>
    simp [directMemberSum, List.filter_cons, h]

lemma dms_map_congr (f g : Location → Location) (gid : Nat) :
    ∀ s : State,
      (∀ l ∈ s, (f l).group = (g l).group ∧ (f l).citations = (g l).citations) →
      directMemberSum (s.map f) gid = directMemberSum (s.map g) gid := by
  intro s
  induction s with
  | nil => intro; rfl
  | cons l t ih =>
      intro h
      have hl := h l (List.mem_cons_self l t)
      simp only [List.map_cons, dms_cons, hl.1, hl.2,
        ih fun x hx => h x (List.mem_cons_of_mem l hx)]

lemma dms_map_eq (f : Location → Location) (gid : Nat) (s : State)
    (h : ∀ l ∈ s, (f l).group = l.group ∧ (f l).citations = l.citations) :
    directMemberSum (s.map f) gid = directMemberSum s gid := by
  have h2 := dms_map_congr f (fun l => l) gid s (by simpa using h)
  simpa using h2

/- Recompute-step lemmas. -/

lemma utc_fst_map (s : State) (gid : Nat) :
    (update_total_citations s gid).1 = s.map (utcFun s gid) := by
  unfold update_total_citations utcFun
  rcases h : s.find? (fun l => l.id == gid) with _ | ge <;> simp [h]

lemma utcFun_gc (s : State) (gid : Nat) (l : Location) :
    (utcFun s gid l).group = l.group ∧ (utcFun s gid l).citations = l.citations := by
  unfold utcFun; split <;> simp

lemma utcFun_skel (s : State) (gid : Nat) : SkelPres (utcFun s gid) := by
  intro l; unfold utcFun; split <;> simp

lemma dms_utc (s : State) (g gid : Nat) :
    directMemberSum (update_total_citations s g).1 gid = directMemberSum s gid := by
  rw [utc_fst_map]
  exact dms_map_eq _ _ _ (fun l _ => utcFun_gc s g l)

lemma rfFun_gc (s : State) (L : List Nat) (l : Location) :
    (rfFun s L l).group = l.group ∧ (rfFun s L l).citations = l.citations := by
  unfold rfFun; split <;> simp

lemma rfFun_skel (s : State) (L : List Nat) : SkelPres (rfFun s L) := by
  intro l; unfold rfFun; split <;> simp

lemma recomputeAll_eq : ∀ (L : List Nat) (s : State),
    recomputeAll s L = s.map (rfFun s L) := by
  intro L
  induction L with
  | nil =>
      intro s
      have h : ∀ l ∈ s, rfFun s [] l = l := by
        intro l _; unfold rfFun; simp
      rw [recomputeAll, List.foldl_nil, List.map_congr_left h]
      simp
  | cons g L ih =>
      intro s
      have hstep : recomputeAll s (g :: L) = recomputeAll (update_total_citations s g).1 L := rfl
      rw [hstep, ih, utc_fst_map, List.map_map]
      refine List.map_congr_left ?_
      intro l hl
      show rfFun (s.map (utcFun s g)) L (utcFun s g l) = rfFun s (g :: L) l
      have hdm : ∀ x, directMemberSum (s.map (utcFun s g)) x = directMemberSum s x :=
        fun x => dms_map_eq _ _ _ (fun l2 _ => utcFun_gc s g l2)
      by_cases hg : (l.id == g) = true
      · have hgid : l.id = g := by simpa using hg
        have hsome : (s.find? (fun e => e.id == g)).isSome = true :=
          List.find?_isSome.mpr ⟨l, hl, hg⟩
        have hu : utcFun s g l =
            { l with total_citations := some (directMemberSum s g + l.citations) } := by
          unfold utcFun
          rw [if_pos (by simp [hsome, hg])]
        rw [hu]
        by_cases hL : L.contains l.id = true
        · have hLm : l.id ∈ L := by simpa using hL
          simp [rfFun, List.contains_cons, hg, hdm, hLm]
        · have hLm : ¬ l.id ∈ L := by simpa using hL
          simp [rfFun, List.contains_cons, hg, hgid, hdm, hLm]
      · have hu : utcFun s g l = l := by
          unfold utcFun
          rw [if_neg (by simp [hg])]
        rw [hu]
        by_cases hL : L.contains l.id = true
        · have hLm : l.id ∈ L := by simpa using hL
          simp [rfFun, List.contains_cons, hdm, hLm]
        · have hLm : ¬ l.id ∈ L := by simpa using hL
          have hgne : ¬ l.id = g := by simpa using hg
          simp [rfFun, List.contains_cons, hgne, hLm]

/- Trace lemmas. -/

lemma traceGroup_nil (d : Nat) (g0 : Option Nat) : traceGroup [] d g0 = g0 := rfl

lemma traceGroup_cons (p : Nat × Nat) (t : List (Nat × Nat)) (d : Nat) (g0 : Option Nat) :
    traceGroup (p :: t) d g0 = traceGroup t d (if d == p.1 then some p.2 else g0) := rfl

lemma traceGroup_lastHit : ∀ (t : List (Nat × Nat)) (d : Nat) (g0 : Option Nat),
    traceGroup t d g0 = match lastHit t d with | some v => some v | none => g0 := by
  intro t
  induction t with
  | nil => intro d g0; rfl
  | cons p t ih =>
      intro d g0
      rw [traceGroup_cons]
      have hlh : lastHit (p :: t) d = traceGroup t d (if d == p.1 then some p.2 else none) := rfl
      rw [hlh, ih, ih]
      rcases h : lastHit t d with _ | v
      · by_cases hc : (d == p.1) = true <;> simp [hc]
      · rfl

lemma traceGroup_idem (t : List (Nat × Nat)) (d : Nat) (g0 : Option Nat) :
    traceGroup t d (traceGroup t d g0) = traceGroup t d g0 := by
  rcases h : lastHit t d with _ | v <;>
    simp [traceGroup_lastHit, h]

/- Replay lemmas. -/

lemma applyAsg_nil (s : State) : applyAsg s [] = s := rfl

lemma applyAsg_cons (s : State) (p : Nat × Nat) (t : List (Nat × Nat)) :
    applyAsg s (p :: t) = applyAsg (setGroup s p.1 p.2) t := rfl

lemma applyAsg_append (s : State) (t1 t2 : List (Nat × Nat)) :
    applyAsg s (t1 ++ t2) = applyAsg (applyAsg s t1) t2 := by
  simp [applyAsg, List.foldl_append]

lemma asgFun_skel (t : List (Nat × Nat)) : SkelPres (asgFun t) := by
  intro l; simp [asgFun]

lemma applyAsg_eq_map : ∀ (t : List (Nat × Nat)) (s : State),
    applyAsg s t = s.map (asgFun t) := by
  intro t
  induction t with
  | nil =>
      intro s
      have h : ∀ l ∈ s, asgFun [] l = l := fun l _ => rfl
      rw [applyAsg_nil, List.map_congr_left h]
      simp
  | cons p t ih =>
      intro s
      rw [applyAsg_cons, ih]
      unfold setGroup
      rw [List.map_map]
      refine (List.map_congr_left ?_)
      intro l _
      show asgFun t (if l.id == p.1 then { l with group := some p.2 } else l) =
        asgFun (p :: t) l
      unfold asgFun
      rw [traceGroup_cons]
      by_cases h : (l.id == p.1) = true <;> simp [h]

/- Resolution stability: the engine never changes `name`, `type` or `id`,
so reference resolution only depends on the ingestion skeleton. -/

lemma glbr_fst (s : State) (ref role : String) (errs : List String) :
    (get_location_by_ref s ref role errs).1 = refLoc s ref := by
  unfold get_location_by_ref refLoc
  rcases h : rsplitHyphen ref.toList with _ | ⟨pre, post⟩
  · rfl
  · dsimp only
    split
    · rename_i loc heq
      rw [heq]
    · rename_i heq
      rw [heq]

lemma refLoc_map (φ : Location → Location) (hφ : SkelPres φ) (s : State) (ref : String) :
    refLoc (s.map φ) ref = (refLoc s ref).map φ := by
  unfold refLoc
  rcases h : rsplitHyphen ref.toList with _ | ⟨pre, post⟩
  · rfl
  · exact find?_map_pres φ _ _ (fun l => by rw [(hφ l).2.1, (hφ l).2.2.1]) s

lemma refIdOf_map (φ : Location → Location) (hφ : SkelPres φ) (s : State) (ref : String) :
    refIdOf (s.map φ) ref = refIdOf s ref := by
  unfold refIdOf
  rw [refLoc_map φ hφ]
  rcases refLoc s ref with _ | m
  · rfl
  · simp [(hφ m).1]

lemma memberAsg_cons (s : State) (lid : Nat) (r : String) (rs : List String) :
    memberAsg s lid (r :: rs) =
      (match refIdOf s r with
        | some m => if m != lid then [(m, lid)] else []
        | none => []) ++ memberAsg s lid rs := by
  simp [memberAsg]

lemma member_fold_eq (s : State) (lid : Nat) :
    ∀ (refs : List String) (st : LGState) (φ : Location → Location),
      SkelPres φ → st.s = s.map φ →
      (refs.foldl (processMember lid) st).s = applyAsg st.s (memberAsg s lid refs) ∧
      (refs.foldl (processMember lid) st).leaders = st.leaders ∧
      ∃ ψ, SkelPres ψ ∧ (refs.foldl (processMember lid) st).s = s.map ψ := by
  intro refs
  induction refs with
  | nil =>
      intro st φ hφ hst
      exact ⟨rfl, rfl, φ, hφ, hst⟩
  | cons r rs ih =>
      intro st φ hφ hst
      rw [List.foldl_cons]
      have h1 : (get_location_by_ref st.s r "member" st.errors).1 = (refLoc s r).map φ := by
        rw [glbr_fst, hst, refLoc_map φ hφ]
      rcases hp : get_location_by_ref st.s r "member" st.errors with ⟨o, e⟩
      rw [hp] at h1
      simp only at h1
      rcases hrl : refLoc s r with _ | m
      · rw [hrl] at h1
        simp only [Option.map_none'] at h1
        subst h1
        have hpm : processMember lid st r = { st with errors := e } := by
          unfold processMember
          rw [hp]
        have hid : refIdOf s r = none := by unfold refIdOf; rw [hrl]; rfl
        rw [hpm, memberAsg_cons, hid]
        simp only [List.nil_append]
        exact ih { st with errors := e } φ hφ hst
      · rw [hrl] at h1
        simp only [Option.map_some'] at h1
        subst h1
        have hid : refIdOf s r = some m.id := by unfold refIdOf; rw [hrl]; rfl
        have hmid : (φ m).id = m.id := (hφ m).1
        by_cases hne : (m.id != lid) = true
        · have hpm : processMember lid st r =
              { st with
                  s := setGroup st.s m.id lid
                  updated := st.updated + 1
                  errors := e } := by
            unfold processMember
            rw [hp]
            dsimp only
            rw [hmid, if_pos hne]
          rw [hpm, memberAsg_cons, hid]
          dsimp only
          rw [if_pos hne, List.singleton_append, applyAsg_cons]
          have hst' : setGroup st.s m.id lid =
              s.map (fun l => if (φ l).id == m.id then { φ l with group := some lid }
                else φ l) := by
            rw [hst]
            unfold setGroup
            rw [List.map_map]
            rfl
          have hφ' : SkelPres (fun l => if (φ l).id == m.id then { φ l with group := some lid }
              else φ l) := by
            intro l
            rcases hφ l with ⟨a, b, c, d⟩
            by_cases h : ((φ l).id == m.id) = true
            · have h2 : l.id = m.id := by rw [← a]; exact beq_iff_eq.mp h
              simp [h, h2, a, b, c, d]
            · have h2 : ¬ l.id = m.id := by
                rw [← a]
                exact fun hh => h (by simpa using hh)
              simp [h, h2, a, b, c, d]
          exact ih _ _ hφ' hst'
        · have hpm : processMember lid st r = { st with errors := e } := by
            unfold processMember
            rw [hp]
            dsimp only
            rw [hmid, if_neg hne]
          rw [hpm, memberAsg_cons, hid]
          dsimp only
          rw [if_neg hne]
          simp only [List.nil_append]
          exact ih _ φ hφ hst

lemma line_eq (s : State) (st : LGState) (line : String) (φ : Location → Location)
    (hφ : SkelPres φ) (hst : st.s = s.map φ) :
    (processLine st line).s = applyAsg st.s (lineAsg s line) ∧
    (processLine st line).leaders = leaderStep s st.leaders line ∧
    ∃ ψ, SkelPres ψ ∧ (processLine st line).s = s.map ψ := by
  rcases hsp : smart_split line with _ | ⟨lref, rest⟩
  · have hpl : processLine st line =
        { st with errors := st.errors ++ ["Invalid group line (needs at least 2 items): " ++ line] } := by
      unfold processLine
      rw [hsp]
    have hla : lineAsg s line = [] := by unfold lineAsg; rw [hsp]
    have hll : lineLeaderId s line = none := by unfold lineLeaderId; rw [hsp]
    rw [hpl, hla]
    refine ⟨rfl, ?_, φ, hφ, hst⟩
    unfold leaderStep
    rw [hll]
  · rcases rest with _ | ⟨mref, mrefs⟩
    · have hpl : processLine st line =
          { st with errors := st.errors ++ ["Invalid group line (needs at least 2 items): " ++ line] } := by
        unfold processLine
        rw [hsp]
      have hla : lineAsg s line = [] := by unfold lineAsg; rw [hsp]
      have hll : lineLeaderId s line = none := by unfold lineLeaderId; rw [hsp]
      rw [hpl, hla]
      refine ⟨rfl, ?_, φ, hφ, hst⟩
      unfold leaderStep
      rw [hll]
    · have h1 : (get_location_by_ref st.s lref "leader" st.errors).1 = (refLoc s lref).map φ := by
        rw [glbr_fst, hst, refLoc_map φ hφ]
      rcases hp : get_location_by_ref st.s lref "leader" st.errors with ⟨o, e⟩
      rw [hp] at h1
      simp only at h1
      rcases hrl : refLoc s lref with _ | lr
      · rw [hrl] at h1
        simp only [Option.map_none'] at h1
        subst h1
        have hpl : processLine st line = { st with errors := e } := by
          unfold processLine
          rw [hsp]
          dsimp only
          rw [hp]
        have hid : refIdOf s lref = none := by unfold refIdOf; rw [hrl]; rfl
        have hla : lineAsg s line = [] := by
          unfold lineAsg
          rw [hsp]
          dsimp only
          rw [hid]
        have hll : lineLeaderId s line = none := by
          unfold lineLeaderId
          rw [hsp]
          dsimp only
          exact hid
        rw [hpl, hla]
        refine ⟨rfl, ?_, φ, hφ, hst⟩
        unfold leaderStep
        rw [hll]
      · rw [hrl] at h1
        simp only [Option.map_some'] at h1
        subst h1
        have hid : refIdOf s lref = some lr.id := by unfold refIdOf; rw [hrl]; rfl
        have hlid : (φ lr).id = lr.id := (hφ lr).1
        have hpl : processLine st line =
            { ((mref :: mrefs).foldl (processMember lr.id) { st with errors := e }) with
              leaders := insertUniq
                ((mref :: mrefs).foldl (processMember lr.id) { st with errors := e }).leaders
                lr.id } := by
          unfold processLine
          rw [hsp]
          dsimp only
          rw [hp]
          dsimp only
          rw [hlid]
        obtain ⟨ha, hb, ψ, hψ, hψs⟩ :=
          member_fold_eq s lr.id (mref :: mrefs) { st with errors := e } φ hφ hst
        have hla : lineAsg s line = memberAsg s lr.id (mref :: mrefs) := by
          unfold lineAsg
          rw [hsp]
          dsimp only
          rw [hid]
        have hll : lineLeaderId s line = some lr.id := by
          unfold lineLeaderId
          rw [hsp]
          dsimp only
          exact hid
        rw [hpl, hla]
        refine ⟨ha, ?_, ψ, hψ, hψs⟩
        unfold leaderStep
        rw [hll]
        dsimp only
        rw [hb]

lemma lines_fold_eq (s : State) :
    ∀ (ls : List String) (st : LGState) (φ : Location → Location),
      SkelPres φ → st.s = s.map φ →
      (ls.foldl processLine st).s = applyAsg st.s ((ls.map (lineAsg s)).flatten) ∧
      (ls.foldl processLine st).leaders = ls.foldl (leaderStep s) st.leaders ∧
      ∃ ψ, SkelPres ψ ∧ (ls.foldl processLine st).s = s.map ψ := by
  intro ls
  induction ls with
  | nil => intro st φ hφ hst; exact ⟨rfl, rfl, φ, hφ, hst⟩
  | cons line ls ih =>
      intro st φ hφ hst
      obtain ⟨ha, hb, ψ, hψ, hψs⟩ := line_eq s st line φ hφ hst
      obtain ⟨ha2, hb2, ψ2, hψ2, hψs2⟩ := ih (processLine st line) ψ hψ hψs
      rw [List.foldl_cons]
      refine ⟨?_, ?_, ψ2, hψ2, hψs2⟩
      · rw [ha2, ha, List.map_cons, List.flatten_cons, applyAsg_append]
      · rw [hb2, List.foldl_cons, hb]

lemma lg_s_eq (s : State) (content : String) :
    (load_groups s content).s =
      recomputeAll (applyAsg s (asgOf s content)) (leadersOf s content) ∧
    (load_groups s content).leaders = leadersOf s content := by
  obtain ⟨ha, hb, _⟩ := lines_fold_eq s (linesOf content) ⟨s, 0, [], []⟩ (fun l => l)
    skelPres_id (by simp)
  constructor
  · show recomputeAll ((linesOf content).foldl processLine ⟨s, 0, [], []⟩).s
        ((linesOf content).foldl processLine ⟨s, 0, [], []⟩).leaders = _
    rw [ha, hb]
    rfl
  · show ((linesOf content).foldl processLine ⟨s, 0, [], []⟩).leaders = _
    rw [hb]
    rfl

lemma skel_factor (X : State) (L : List Nat) (ψ : Location → Location) (hψ : SkelPres ψ)
    (s : State) (hX : X = s.map ψ) :
    ∃ ψ2, SkelPres ψ2 ∧ recomputeAll X L = s.map ψ2 := by
  refine ⟨fun l => rfFun X L (ψ l), skelPres_comp hψ (rfFun_skel X L), ?_⟩
  rw [recomputeAll_eq, hX, List.map_map]
  rfl

lemma lg_skel (s : State) (content : String) :
    ∃ ψ, SkelPres ψ ∧ (load_groups s content).s = s.map ψ := by
  obtain ⟨_, _, ψ, hψ, hψs⟩ := lines_fold_eq s (linesOf content) ⟨s, 0, [], []⟩ (fun l => l)
    skelPres_id (by simp)
  have hs : (load_groups s content).s =
      recomputeAll ((linesOf content).foldl processLine ⟨s, 0, [], []⟩).s
        ((linesOf content).foldl processLine ⟨s, 0, [], []⟩).leaders := rfl
  rw [hs]
  exact skel_factor _ _ ψ hψ s hψs

lemma memberAsg_stable (ψ : Location → Location) (hψ : SkelPres ψ) (s : State) (lid : Nat) :
    ∀ refs, memberAsg (s.map ψ) lid refs = memberAsg s lid refs := by
  intro refs
  induction refs with
  | nil => rfl
  | cons r rs ih => rw [memberAsg_cons, memberAsg_cons, refIdOf_map ψ hψ, ih]

lemma lineAsg_stable (ψ : Location → Location) (hψ : SkelPres ψ) (s : State) (line : String) :
    lineAsg (s.map ψ) line = lineAsg s line := by
  unfold lineAsg
  rcases h : smart_split line with _ | ⟨lref, rest⟩
  · rfl
  · rcases rest with _ | ⟨mref, mrefs⟩
    · rfl
    · dsimp only
      rw [refIdOf_map ψ hψ]
      rcases refIdOf s lref with _ | lid
      · rfl
      · exact memberAsg_stable ψ hψ s lid (mref :: mrefs)

lemma lineLeaderId_stable (ψ : Location → Location) (hψ : SkelPres ψ) (s : State)
    (line : String) : lineLeaderId (s.map ψ) line = lineLeaderId s line := by
  unfold lineLeaderId
  rcases h : smart_split line with _ | ⟨lref, rest⟩
  · rfl
  · rcases rest with _ | ⟨mref, mrefs⟩
    · rfl
    · dsimp only
      exact refIdOf_map ψ hψ s lref

lemma leadersOf_stable (ψ : Location → Location) (hψ : SkelPres ψ) (s : State)
    (content : String) : leadersOf (s.map ψ) content = leadersOf s content := by
  unfold leadersOf
  have hstep : ∀ acc line, leaderStep (s.map ψ) acc line = leaderStep s acc line := by
    intro acc line
    unfold leaderStep
    rw [lineLeaderId_stable ψ hψ]
  have hfold : ∀ (ls : List String) (acc : List Nat),
      ls.foldl (leaderStep (s.map ψ)) acc = ls.foldl (leaderStep s) acc := by
    intro ls
    induction ls with
    | nil => intro acc; rfl
    | cons l t iht => intro acc; rw [List.foldl_cons, List.foldl_cons, hstep, iht]
  exact hfold (linesOf content) []

lemma asgOf_stable (ψ : Location → Location) (hψ : SkelPres ψ) (s : State)
    (content : String) : asgOf (s.map ψ) content = asgOf s content := by
  unfold asgOf
  exact congrArg List.flatten (List.map_congr_left fun line _ => lineAsg_stable ψ hψ s line)

lemma merge_rows (s : State) (fid N : Nat) :
    loserStep (repointStep s fid N) fid N = s.map (mergeRowFun fid N) := by
  unfold loserStep repointStep
  rw [List.map_map]
  refine List.map_congr_left ?_
  intro l _
  simp only [Function.comp]
  unfold mergeRowFun
  by_cases hg : (l.group == some fid) = true <;>
    by_cases hi : (l.id == fid) = true <;>
      simp [hg, hi]

lemma update_group_eq (s : State) (id1 id2 : Nat) (loc1 loc2 : Location)
    (h1 : s.find? (fun l => l.id == id1) = some loc1)
    (h2 : s.find? (fun l => l.id == id2) = some loc2) (f g : Location)
    (hf : f = if loc1.citations < loc2.citations then loc1 else loc2)
    (hg : g = if loc1.citations < loc2.citations then loc2 else loc1) :
    update_group s id1 id2 = some (mergeResult s f g, f.id, g.id, f.group.isSome) := by
  subst hf hg
  unfold update_group mergeResult mergeN
  rw [h1, h2]
  dsimp only
  by_cases hc : loc1.citations < loc2.citations
  · simp only [if_pos hc]
    rw [merge_rows]
  · simp only [if_neg hc]
    rw [merge_rows]

/-- C7 amended: the recompute set of a manifest run is exactly the set of
distinct leader ids that resolved on a line with at least two fields
(first-seen order), regardless of whether any member update happened; and
the final phase recomputes exactly those ids over the store left by the
assignment phase. -/
theorem c7_recompute_set (s : State) (content : String) :
    (load_groups s content).leaders = leadersOf s content ∧
    (load_groups s content).s =
      recomputeAll (applyAsg s (asgOf s content)) (load_groups s content).leaders := by
  obtain ⟨h1, h2⟩ := lg_s_eq s content
  exact ⟨h2, by rw [h2]; exact h1⟩

lemma asgFun_fix (T : List (Nat × Nat)) (x : Location) (g0 : Option Nat)
    (h : x.group = traceGroup T x.id g0) : asgFun T x = x := by
  unfold asgFun
  rw [h, traceGroup_idem, ← h]

lemma rfFun_fix (X : State) (L : List Nat) (x : Location)
    (h : L.contains x.id = true →
      x.total_citations = some (directMemberSum X x.id + x.citations)) :
    rfFun X L x = x := by
  unfold rfFun
  by_cases hL : L.contains x.id = true
  · rw [if_pos hL, ← h hL]
  · rw [if_neg hL]

lemma replay_fix (s : State) (T : List (Nat × Nat)) (L : List Nat) :
    (recomputeAll (applyAsg s T) L).map (asgFun T) = recomputeAll (applyAsg s T) L := by
  rw [recomputeAll_eq, applyAsg_eq_map]
  simp only [List.map_map]
  refine List.map_congr_left ?_
  intro l _
  show asgFun T (rfFun (s.map (asgFun T)) L (asgFun T l)) =
    rfFun (s.map (asgFun T)) L (asgFun T l)
  have hid : (rfFun (s.map (asgFun T)) L (asgFun T l)).id = l.id :=
    ((rfFun_skel _ _ _).1).trans (asgFun_skel T l).1
  refine asgFun_fix T _ l.group ?_
  rw [(rfFun_gc _ _ _).1, hid]
  rfl

lemma recompute_fix (a1 : State) (L : List Nat) :
    recomputeAll (recomputeAll a1 L) L = recomputeAll a1 L := by
  rw [recomputeAll_eq L a1, recomputeAll_eq L (a1.map (rfFun a1 L)), List.map_map]
  refine List.map_congr_left ?_
  intro y _
  show rfFun (a1.map (rfFun a1 L)) L (rfFun a1 L y) = rfFun a1 L y
  have hid : (rfFun a1 L y).id = y.id := (rfFun_skel a1 L y).1
  have hcit : (rfFun a1 L y).citations = y.citations := (rfFun_gc a1 L y).2
  have hdms : directMemberSum (a1.map (rfFun a1 L)) y.id = directMemberSum a1 y.id :=
    dms_map_eq _ _ _ (fun l _ => rfFun_gc a1 L l)
  refine rfFun_fix _ L _ ?_
  intro hL
  rw [hid] at hL
  rw [hid, hcit, hdms]
  unfold rfFun
  rw [if_pos hL]

lemma recompute_replay_idem (s : State) (T : List (Nat × Nat)) (L : List Nat) :
    recomputeAll (applyAsg (recomputeAll (applyAsg s T) L) T) L =
      recomputeAll (applyAsg s T) L := by
  rw [applyAsg_eq_map T (recomputeAll (applyAsg s T) L), replay_fix s T L]
  exact recompute_fix (applyAsg s T) L

/-- C9: running the same manifest twice from the same pre-state gives the
same store as running it once — group writes overwrite, resolution only
reads the immutable columns, and the recompute pass is deterministic in
the final group assignment. -/
theorem c9_idempotent (s : State) (content : String) :
    (load_groups (load_groups s content).s content).s = (load_groups s content).s := by
  obtain ⟨ψ, hψ, hF⟩ := lg_skel s content
  have hasg : asgOf (load_groups s content).s content = asgOf s content := by
    rw [hF]; exact asgOf_stable ψ hψ s content
  have hld : leadersOf (load_groups s content).s content = leadersOf s content := by
    rw [hF]; exact leadersOf_stable ψ hψ s content
  have h1 := (lg_s_eq s content).1
  have h1b := (lg_s_eq (load_groups s content).s content).1
  rw [h1b, hasg, hld, h1]
  exact recompute_replay_idem s (asgOf s content) (leadersOf s content)

/- Pointwise facts about the merge row function. -/

lemma mergeRowFun_skel (fid N : Nat) : SkelPres (mergeRowFun fid N) := by
  intro l
  unfold mergeRowFun
  split
  · simp
  · split <;> simp

lemma mergeRowFun_self (fid N : Nat) (x : Location) (h : x.id = fid) :
    mergeRowFun fid N x = { x with group := some N, total_citations := none } := by
  unfold mergeRowFun
  rw [if_pos (by simp [h])]

lemma mergeRowFun_total (fid N : Nat) (x : Location) (h : ¬ x.id = fid) :
    (mergeRowFun fid N x).total_citations = x.total_citations := by
  unfold mergeRowFun
  rw [if_neg (by simp [h])]
  split <;> simp

lemma mergeRowFun_group (fid N : Nat) (x : Location) :
    (mergeRowFun fid N x).group =
      if x.id = fid ∨ x.group = some fid then some N else x.group := by
  unfold mergeRowFun
  by_cases h1 : x.id = fid
  · rw [if_pos (by simp [h1])]
    simp [h1]
  · by_cases h2 : x.group = some fid
    · rw [if_neg (by simp [h1]), if_pos (by simp [h2])]
      simp [h1, h2]
    · rw [if_neg (by simp [h1]), if_neg (by simp [h2])]
      simp [h1, h2]

lemma utcFun_skip (X : State) (gid : Nat) (x : Location) (h : ¬ x.id = gid) :
    utcFun X gid x = x := by
  unfold utcFun
  rw [if_neg (by simp [h])]

lemma utcFun_hit (X : State) (gid : Nat) (x : Location) (h : x.id = gid)
    (hmem : ∃ e ∈ X, e.id = gid) :
    utcFun X gid x = { x with total_citations := some (directMemberSum X gid + x.citations) } := by
  obtain ⟨e, he, heid⟩ := hmem
  have hsome : (X.find? (fun e => e.id == gid)).isSome = true :=
    List.find?_isSome.mpr ⟨e, he, by simp [heid]⟩
  unfold utcFun
  rw [if_pos (by simp [hsome, h])]

lemma utcFun_total_hit (X : State) (gid : Nat) (x : Location) (h : x.id = gid)
    (hmem : ∃ e ∈ X, e.id = gid) :
    (utcFun X gid x).total_citations = some (directMemberSum X gid + x.citations) := by
  rw [utcFun_hit X gid x h hmem]

lemma utcFun_total_skip (X : State) (gid : Nat) (x : Location) (h : ¬ x.id = gid) :
    (utcFun X gid x).total_citations = x.total_citations := by
  rw [utcFun_skip X gid x h]

/-- Pointwise description of `mergeResult`: it is a single row-map over the
pre-state whose group column follows `mergeRowFun`, and whose
`total_citations` column is: recomputed at the new root, recomputed at the
loser's truthy old root, and otherwise carried over from `mergeRowFun`
(i.e. `None` at the loser, untouched elsewhere). -/
lemma mergeResult_spec (s : State) (f g : Location) :
    ∃ Φ : Location → Location,
      mergeResult s f g = s.map Φ ∧
      (∀ x, (Φ x).id = x.id ∧ (Φ x).citations = x.citations ∧
        (Φ x).group = (mergeRowFun f.id (mergeN g) x).group) ∧
      (∀ x ∈ s, x.id = mergeN g →
        (Φ x).total_citations =
          some (directMemberSum (s.map (mergeRowFun f.id (mergeN g))) (mergeN g) +
            x.citations)) ∧
      (∀ x ∈ s, truthyN f.group = true → x.id = f.group.getD 0 → ¬ x.id = mergeN g →
        (Φ x).total_citations =
          some (directMemberSum (s.map (mergeRowFun f.id (mergeN g))) x.id +
            x.citations)) ∧
      (∀ x, ¬ x.id = mergeN g → (truthyN f.group = true → ¬ x.id = f.group.getD 0) →
        (Φ x).total_citations = (mergeRowFun f.id (mergeN g) x).total_citations) := by
  unfold mergeResult
  dsimp only
  have hdm3 : ∀ R, directMemberSum
      ((s.map (mergeRowFun f.id (mergeN g))).map
        (utcFun (s.map (mergeRowFun f.id (mergeN g))) (mergeN g))) R =
      directMemberSum (s.map (mergeRowFun f.id (mergeN g))) R :=
    fun R => dms_map_eq _ _ _ (fun l _ => utcFun_gc _ _ l)
  by_cases hold : truthyN f.group = true
  · rw [if_pos hold]
    simp only [utc_fst_map]
    refine ⟨fun x =>
        utcFun ((s.map (mergeRowFun f.id (mergeN g))).map
            (utcFun (s.map (mergeRowFun f.id (mergeN g))) (mergeN g)))
          (f.group.getD 0)
          (utcFun (s.map (mergeRowFun f.id (mergeN g))) (mergeN g)
            (mergeRowFun f.id (mergeN g) x)),
      by rw [List.map_map, List.map_map]; rfl, ?_, ?_, ?_, ?_⟩
    · intro x
      refine ⟨?_, ?_, ?_⟩
      · show (utcFun _ _ (utcFun _ _ (mergeRowFun f.id (mergeN g) x))).id = x.id
        rw [(utcFun_skel _ _ _).1, (utcFun_skel _ _ _).1, (mergeRowFun_skel _ _ x).1]
      · show (utcFun _ _ (utcFun _ _ (mergeRowFun f.id (mergeN g) x))).citations = x.citations
        rw [(utcFun_gc _ _ _).2, (utcFun_gc _ _ _).2, (mergeRowFun_skel _ _ x).2.2.2]
      · show (utcFun _ _ (utcFun _ _ (mergeRowFun f.id (mergeN g) x))).group = _
        rw [(utcFun_gc _ _ _).1, (utcFun_gc _ _ _).1]
    · intro x hx hxid
      have hAid : (mergeRowFun f.id (mergeN g) x).id = x.id := (mergeRowFun_skel _ _ x).1
      have hAcit : (mergeRowFun f.id (mergeN g) x).citations = x.citations :=
        (mergeRowFun_skel _ _ x).2.2.2
      show (utcFun _ _ (utcFun _ _ (mergeRowFun f.id (mergeN g) x))).total_citations = _
      by_cases hON : f.group.getD 0 = mergeN g
      · rw [utcFun_total_hit _ _ _
          (by rw [(utcFun_skel _ _ _).1, hAid, hON]; exact hxid)
          ⟨utcFun (s.map (mergeRowFun f.id (mergeN g))) (mergeN g)
              (mergeRowFun f.id (mergeN g) x),
            List.mem_map_of_mem _ (List.mem_map_of_mem _ hx),
            by rw [(utcFun_skel _ _ _).1, hAid, hON]; exact hxid⟩]
        rw [hON, hdm3, (utcFun_gc _ _ _).2, hAcit]
      · rw [utcFun_total_skip _ _ _
          (by rw [(utcFun_skel _ _ _).1, hAid, hxid]; exact fun hh => hON hh.symm)]
        rw [utcFun_total_hit _ _ _ (by rw [hAid]; exact hxid)
          ⟨mergeRowFun f.id (mergeN g) x, List.mem_map_of_mem _ hx,
            by rw [hAid]; exact hxid⟩]
        rw [hAcit]
    · intro x hx htr hxid hxnN
      have hAid : (mergeRowFun f.id (mergeN g) x).id = x.id := (mergeRowFun_skel _ _ x).1
      have hAcit : (mergeRowFun f.id (mergeN g) x).citations = x.citations :=
        (mergeRowFun_skel _ _ x).2.2.2
      show (utcFun _ _ (utcFun _ _ (mergeRowFun f.id (mergeN g) x))).total_citations = _
      rw [utcFun_total_hit _ _ _
        (by rw [(utcFun_skel _ _ _).1, hAid]; exact hxid)
        ⟨utcFun (s.map (mergeRowFun f.id (mergeN g))) (mergeN g)
            (mergeRowFun f.id (mergeN g) x),
          List.mem_map_of_mem _ (List.mem_map_of_mem _ hx),
          by rw [(utcFun_skel _ _ _).1, hAid]; exact hxid⟩]
      rw [hdm3, (utcFun_gc _ _ _).2, hAcit, hxid]
    · intro x hxnN hxnO
      have hAid : (mergeRowFun f.id (mergeN g) x).id = x.id := (mergeRowFun_skel _ _ x).1
      show (utcFun _ _ (utcFun _ _ (mergeRowFun f.id (mergeN g) x))).total_citations = _
      rw [utcFun_total_skip _ _ _
        (by rw [(utcFun_skel _ _ _).1, hAid]; exact hxnO hold)]
      rw [utcFun_total_skip _ _ _ (by rw [hAid]; exact hxnN)]
  · rw [if_neg hold]
    simp only [utc_fst_map]
    refine ⟨fun x =>
        utcFun (s.map (mergeRowFun f.id (mergeN g))) (mergeN g)
          (mergeRowFun f.id (mergeN g) x),
      by rw [List.map_map]; rfl, ?_, ?_, ?_, ?_⟩
    · intro x
      refine ⟨?_, ?_, ?_⟩
      · show (utcFun _ _ (mergeRowFun f.id (mergeN g) x)).id = x.id
        rw [(utcFun_skel _ _ _).1, (mergeRowFun_skel _ _ x).1]
      · show (utcFun _ _ (mergeRowFun f.id (mergeN g) x)).citations = x.citations
        rw [(utcFun_gc _ _ _).2, (mergeRowFun_skel _ _ x).2.2.2]
      · show (utcFun _ _ (mergeRowFun f.id (mergeN g) x)).group = _
        rw [(utcFun_gc _ _ _).1]
    · intro x hx hxid
      have hAid : (mergeRowFun f.id (mergeN g) x).id = x.id := (mergeRowFun_skel _ _ x).1
      have hAcit : (mergeRowFun f.id (mergeN g) x).citations = x.citations :=
        (mergeRowFun_skel _ _ x).2.2.2
      show (utcFun _ _ (mergeRowFun f.id (mergeN g) x)).total_citations = _
      rw [utcFun_total_hit _ _ _ (by rw [hAid]; exact hxid)
        ⟨mergeRowFun f.id (mergeN g) x, List.mem_map_of_mem _ hx,
          by rw [hAid]; exact hxid⟩]
      rw [hAcit]
    · intro x hx htr
      exact absurd htr hold
    · intro x hxnN _
      have hAid : (mergeRowFun f.id (mergeN g) x).id = x.id := (mergeRowFun_skel _ _ x).1
      show (utcFun _ _ (mergeRowFun f.id (mergeN g) x)).total_citations = _
      rw [utcFun_total_skip _ _ _ (by rw [hAid]; exact hxnN)]

lemma truthyN_getD (o : Option Nat) (h : truthyN o = true) : o = some (o.getD 0) := by
  rcases o with _ | v
  · exact absurd h (by simp [truthyN])
  · rfl

lemma merge_loser_total (s : State) (f g : Location) (hsl : f.group ≠ some f.id) :
    ∀ y ∈ mergeResult s f g, y.id = f.id →
      y.total_citations = none ∨ y.group = some y.id := by
  obtain ⟨Φ, hmap, hb1, hb2, hb3, hb4⟩ := mergeResult_spec s f g
  rw [hmap]
  intro y hy hyid
  obtain ⟨x, hxs, rfl⟩ := List.mem_map.mp hy
  have hxid : x.id = f.id := by rw [← (hb1 x).1]; exact hyid
  by_cases hN : mergeN g = f.id
  · right
    rw [(hb1 x).2.2, mergeRowFun_group, if_pos (Or.inl hxid), (hb1 x).1, hxid, hN]
  · left
    have hnotold : truthyN f.group = true → ¬ x.id = f.group.getD 0 := by
      intro htr hh
      exact hsl (by rw [truthyN_getD f.group htr, ← hh, hxid])
    rw [hb4 x (by rw [hxid]; exact fun hh => hN hh.symm) hnotold,
      mergeRowFun_self _ _ x hxid]

/-- C4 amended: only the recomputed leader rows of a `load_groups` run can
see their `total_citations` change — every other row (in particular every
member re-pointed at a leader without itself being a leader) keeps its
previous value, which is not cleared to `None`; the merge operation, in
contrast, does clear the loser's total (unless the degenerate merge makes
the loser its own root, in which case the loser's `group` equals its own
id). -/
theorem c4_total_clearing :
    (∀ (s : State) (content : String),
      List.Forall₂ (fun x y =>
        y.total_citations = x.total_citations ∨ x.id ∈ (load_groups s content).leaders)
        s (load_groups s content).s) ∧
    (∀ (s : State) (id1 id2 : Nat) (out : State × Nat × Nat × Bool),
      (∀ l ∈ s, l.group ≠ some l.id) →
      update_group s id1 id2 = some out →
      ∀ y ∈ out.1, y.id = out.2.1 →
        y.total_citations = none ∨ y.group = some y.id) := by
  constructor
  · intro s content
    have h2 := (lg_s_eq s content).2
    rw [(lg_s_eq s content).1, recomputeAll_eq, applyAsg_eq_map, List.map_map]
    apply forall₂_map_self
    intro x hx
    by_cases hL : (leadersOf s content).contains x.id = true
    · right
      rw [h2]
      simpa using hL
    · left
      have hid : (asgFun (asgOf s content) x).id = x.id := (asgFun_skel _ x).1
      show (rfFun _ _ (asgFun (asgOf s content) x)).total_citations = x.total_citations
      unfold rfFun
      rw [if_neg (by rw [hid]; exact hL)]
      rfl
  · intro s id1 id2 out hsl hupd
    rcases h1 : s.find? (fun l => l.id == id1) with _ | loc1
    · unfold update_group at hupd
      rw [h1] at hupd
      exact Option.noConfusion hupd
    · rcases h2 : s.find? (fun l => l.id == id2) with _ | loc2
      · unfold update_group at hupd
        rw [h1, h2] at hupd
        exact Option.noConfusion hupd
      · have hout := update_group_eq s id1 id2 loc1 loc2 h1 h2
          (if loc1.citations < loc2.citations then loc1 else loc2)
          (if loc1.citations < loc2.citations then loc2 else loc1) rfl rfl
        rw [hupd] at hout
        obtain rfl := Option.some.inj hout
        intro y hy hyid
        have hfmem : (if loc1.citations < loc2.citations then loc1 else loc2) ∈ s := by
          by_cases hc : loc1.citations < loc2.citations
          · rw [if_pos hc]; exact List.mem_of_find?_eq_some h1
          · rw [if_neg hc]; exact List.mem_of_find?_eq_some h2
        exact merge_loser_total s _ _ (hsl _ hfmem) y hy hyid

theorem c4_total_clearing_witness :
    (⟨1, "F", "City", 5, none, some 2⟩ : Location).total_citations = none ∨
    (⟨1, "F", "City", 5, none, some 2⟩ : Location).group = some 1 := by
  refine c4_total_clearing.2 demoC4w 1 2
    ([⟨1, "F", "City", 5, none, some 2⟩, ⟨2, "G", "City", 9, some 14, none⟩], 1, 2, false)
    (by decide) (by decide) ⟨1, "F", "City", 5, none, some 2⟩ (by decide) (by decide)

/-- C5 amended: with both ids resolving, the loser `f` and winner `g` fixed
by the citation comparison, the merge re-points every row whose `group`
was `f.id` (and `f` itself) at the new root id — `g.group` when `g` is
grouped (non-zero), else `g.id` — and clears the loser's
`total_citations`, provided the new root id differs from `f.id` (when
`g.group = f.id`, the excluded degenerate case, `f` becomes its own root
and its total is immediately recomputed, see the C5 counterexample). -/
theorem c5_merge_effects (s : State) (id1 id2 : Nat) (loc1 loc2 f g : Location)
    (h1 : s.find? (fun l => l.id == id1) = some loc1)
    (h2 : s.find? (fun l => l.id == id2) = some loc2)
    (hf : f = if loc1.citations < loc2.citations then loc1 else loc2)
    (hg : g = if loc1.citations < loc2.citations then loc2 else loc1)
    (hNf : mergeN g ≠ f.id)
    (hsl : f.group ≠ some f.id) :
    update_group s id1 id2 = some (mergeResult s f g, f.id, g.id, f.group.isSome) ∧
    (g.group ≠ some 0 → mergeN g = g.group.getD g.id) ∧
    List.Forall₂ (fun x y =>
      (x.group = some f.id → y.group = some (mergeN g)) ∧
      (x.id = f.id → y.group = some (mergeN g) ∧ y.total_citations = none))
      s (mergeResult s f g) := by
  refine ⟨update_group_eq s id1 id2 loc1 loc2 h1 h2 f g hf hg, ?_, ?_⟩
  · intro hg0
    unfold mergeN truthyN
    rcases hgg : g.group with _ | v
    · rfl
    · have hv : ¬ v = 0 := by
        intro hv0
        exact hg0 (by rw [hgg, hv0])
      simp [hv]
  · obtain ⟨Φ, hmap, hb1, hb2, hb3, hb4⟩ := mergeResult_spec s f g
    rw [hmap]
    apply forall₂_map_self
    intro x hx
    constructor
    · intro hxg
      rw [(hb1 x).2.2, mergeRowFun_group, if_pos (Or.inr hxg)]
    · intro hxid
      have hnotold : truthyN f.group = true → ¬ x.id = f.group.getD 0 := by
        intro htr hh
        exact hsl (by rw [truthyN_getD f.group htr, ← hh, hxid])
      refine ⟨?_, ?_⟩
      · rw [(hb1 x).2.2, mergeRowFun_group, if_pos (Or.inl hxid)]
      · rw [hb4 x (by rw [hxid]; exact fun hh => hNf hh.symm) hnotold,
          mergeRowFun_self _ _ x hxid]

theorem c5_merge_effects_witness :
    update_group demoC5w 1 2 =
      some ([⟨1, "F", "City", 5, none, some 3⟩, ⟨2, "G", "City", 9, some 9, some 3⟩,
        ⟨3, "H", "City", 20, some 34, none⟩], 1, 2, false) ∧
    List.Forall₂ (fun x y =>
      (x.group = some 1 → y.group = some 3) ∧
      (x.id = 1 → y.group = some 3 ∧ y.total_citations = none))
      demoC5w
      ([⟨1, "F", "City", 5, none, some 3⟩, ⟨2, "G", "City", 9, some 9, some 3⟩,
        ⟨3, "H", "City", 20, some 34, none⟩] : State) := by
  have h := c5_merge_effects demoC5w 1 2
    ⟨1, "F", "City", 5, some 5, none⟩ ⟨2, "G", "City", 9, some 9, some 3⟩
    ⟨1, "F", "City", 5, some 5, none⟩ ⟨2, "G", "City", 9, some 9, some 3⟩
    (by decide) (by decide) (by decide) (by decide) (by decide) (by decide)
  constructor
  · rw [h.1]
    decide
  · have h3 := h.2.2
    have he : mergeResult demoC5w ⟨1, "F", "City", 5, some 5, none⟩
        ⟨2, "G", "City", 9, some 9, some 3⟩ =
        [⟨1, "F", "City", 5, none, some 3⟩, ⟨2, "G", "City", 9, some 9, some 3⟩,
          ⟨3, "H", "City", 20, some 34, none⟩] := by decide
    rw [he] at h3
    exact h3

lemma dms_map_iff (χ : Location → Location) (R : Nat) :
    ∀ s : State,
      (∀ l ∈ s, ((χ l).group = some R ↔ l.group = some R) ∧
        (χ l).citations = l.citations) →
      directMemberSum (s.map χ) R = directMemberSum s R := by
  intro s
  induction s with
  | nil => intro; rfl
  | cons l t ih =>
      intro h
      have hl := h l (List.mem_cons_self l t)
      simp only [List.map_cons, dms_cons]
      rw [ih (fun z hz => h z (List.mem_cons_of_mem l hz))]
      have hcond : ((χ l).group == some R) = (l.group == some R) := by
        by_cases hg : l.group = some R
        · simp [hg, hl.1.mpr hg]
        · have h2 : ¬ (χ l).group = some R := fun hh => hg (hl.1.mp hh)
          simp [hg, h2]
      rw [hcond, hl.2]

/-- Core preservation argument for the merge: every root of the resulting
store satisfies the quiescent-root equation, given unique positive ids
and the equation holding for every root beforehand. -/
lemma merge_preserves (s : State) (f g : Location)
    (hnd : (s.map Location.id).Nodup) (hpos : ∀ l ∈ s, 0 < l.id)
    (hf : f ∈ s) (hpre : ∀ r ∈ s, isRoot s r.id = true → rootOk s r) :
    ∀ r ∈ mergeResult s f g, isRoot (mergeResult s f g) r.id = true →
      rootOk (mergeResult s f g) r := by
  obtain ⟨Φ, hmap, hb1, hb2, hb3, hb4⟩ := mergeResult_spec s f g
  have hdmsr : ∀ R, directMemberSum (mergeResult s f g) R =
      directMemberSum (s.map (mergeRowFun f.id (mergeN g))) R := by
    intro R
    rw [hmap]
    exact dms_map_congr Φ (mergeRowFun f.id (mergeN g)) R s
      (fun l _ => ⟨(hb1 l).2.2, by rw [(hb1 l).2.1, (mergeRowFun_skel _ _ l).2.2.2]⟩)
  rw [hmap]
  intro r hr hroot
  obtain ⟨x, hxs, rfl⟩ := List.mem_map.mp hr
  have hxid : (Φ x).id = x.id := (hb1 x).1
  have hxcit : (Φ x).citations = x.citations := (hb1 x).2.1
  by_cases hN : x.id = mergeN g
  · unfold rootOk
    rw [hb2 x hxs hN, hxid, hxcit, ← hmap, hdmsr, hN]
    exact congrArg some (Int.add_comm _ _)
  · by_cases hOld : truthyN f.group = true ∧ x.id = f.group.getD 0
    · unfold rootOk
      rw [hb3 x hxs hOld.1 hOld.2 hN, hxid, hxcit, ← hmap, hdmsr]
      exact congrArg some (Int.add_comm _ _)
    · have hnotold2 : truthyN f.group = true → ¬ x.id = f.group.getD 0 :=
        fun ht hx2 => hOld ⟨ht, hx2⟩
      by_cases hF : x.id = f.id
      · exfalso
        rw [hxid, hF] at hroot
        unfold isRoot at hroot
        rw [List.any_eq_true] at hroot
        obtain ⟨y, hy, hyp⟩ := hroot
        obtain ⟨z, hzs, rfl⟩ := List.mem_map.mp hy
        simp only [Bool.and_eq_true, beq_iff_eq, bne_iff_ne] at hyp
        have hzg := hyp.1
        rw [(hb1 z).2.2, mergeRowFun_group] at hzg
        by_cases hcond : z.id = f.id ∨ z.group = some f.id
        · rw [if_pos hcond] at hzg
          exact hN (by rw [hF, ← Option.some.inj hzg])
        · rw [if_neg hcond] at hzg
          exact hcond (Or.inr hzg)
      · have htot : (Φ x).total_citations = x.total_citations := by
          rw [hb4 x hN hnotold2, mergeRowFun_total _ _ x hF]
        have hdms2 : directMemberSum (s.map (mergeRowFun f.id (mergeN g))) x.id =
            directMemberSum s x.id := by
          refine dms_map_iff (mergeRowFun f.id (mergeN g)) x.id s ?_
          intro l hls
          refine ⟨?_, (mergeRowFun_skel _ _ l).2.2.2⟩
          rw [mergeRowFun_group]
          by_cases hcond : l.id = f.id ∨ l.group = some f.id
          · rw [if_pos hcond]
            constructor
            · intro hNx
              exact ((hN (Option.some.inj hNx).symm).elim)
            · intro hlx
              rcases hcond with hcid | hcg
              · have hlf : l = f := id_unique s hnd hls hf hcid
                have hfg : f.group = some x.id := by rw [← hlf]; exact hlx
                have hxpos : 0 < x.id := hpos x hxs
                have htr : truthyN f.group = true := by
                  rw [hfg]
                  simp only [truthyN, bne_iff_ne, ne_eq]
                  omega
                have h3 := hnotold2 htr
                rw [hfg] at h3
                simp only [Option.getD_some] at h3
                exact (h3 (by simp)).elim
              · rw [hcg] at hlx
                exact absurd (Option.some.inj hlx).symm hF
          · rw [if_neg hcond]
        have hroot0 : isRoot s x.id = true := by
          rw [hxid] at hroot
          unfold isRoot at hroot ⊢
          rw [List.any_eq_true] at hroot ⊢
          obtain ⟨y, hy, hyp⟩ := hroot
          obtain ⟨z, hzs, rfl⟩ := List.mem_map.mp hy
          simp only [Bool.and_eq_true, beq_iff_eq, bne_iff_ne] at hyp
          refine ⟨z, hzs, ?_⟩
          simp only [Bool.and_eq_true, beq_iff_eq, bne_iff_ne]
          have hzg := hyp.1
          rw [(hb1 z).2.2, mergeRowFun_group] at hzg
          by_cases hcond : z.id = f.id ∨ z.group = some f.id
          · rw [if_pos hcond] at hzg
            exact (hN (Option.some.inj hzg).symm).elim
          · rw [if_neg hcond] at hzg
            exact ⟨hzg, by rw [← (hb1 z).1]; exact hyp.2⟩
        have hpre2 := hpre x hxs hroot0
        unfold rootOk at hpre2 ⊢
        rw [htot, hxid, hxcit, ← hmap, hdmsr, hdms2]
        exact hpre2

/-- C1 amended: load-groups guarantees the quiescent-root equation exactly
for the leader ids it recomputes — after a run every recomputed leader row
stores `citations + direct member sum` — while a pre-existing root that
loses members to the manifest without being one of its leaders may keep a
stale total (counterexample); the merge operation, in contrast, preserves
the equation for every root, given unique positive ids and the equation
holding beforehand. -/
theorem c1_root_equation :
    (∀ (s : State) (content : String) (gid : Nat) (r : Location),
      gid ∈ (load_groups s content).leaders →
      (load_groups s content).s.find? (fun l => l.id == gid) = some r →
      rootOk (load_groups s content).s r) ∧
    (∀ (s : State) (id1 id2 : Nat) (out : State × Nat × Nat × Bool),
      (s.map Location.id).Nodup →
      (∀ l ∈ s, 0 < l.id) →
      update_group s id1 id2 = some out →
      (∀ r ∈ s, isRoot s r.id = true → rootOk s r) →
      ∀ r ∈ out.1, isRoot out.1 r.id = true → rootOk out.1 r) := by
  constructor
  · intro s content gid r hgid hfind
    rw [(lg_s_eq s content).2] at hgid
    rw [(lg_s_eq s content).1] at hfind ⊢
    rw [recomputeAll_eq] at hfind ⊢
    rw [find?_map_pres (rfFun (applyAsg s (asgOf s content)) (leadersOf s content))
      (fun l => l.id == gid) (fun l => l.id == gid)
      (fun l => by simp only [(rfFun_skel _ _ l).1]) _] at hfind
    rcases hr0 : (applyAsg s (asgOf s content)).find? (fun l => l.id == gid) with _ | r0
    · rw [hr0] at hfind
      exact Option.noConfusion hfind
    · rw [hr0] at hfind
      simp only [Option.map_some'] at hfind
      obtain rfl := Option.some.inj hfind
      have hid0 : r0.id = gid := by simpa using List.find?_some hr0
      have hcont : (leadersOf s content).contains r0.id = true := by
        rw [hid0]
        simpa using hgid
      have hval : rfFun (applyAsg s (asgOf s content)) (leadersOf s content) r0 =
          { r0 with
              total_citations :=
                some (directMemberSum (applyAsg s (asgOf s content)) r0.id +
                  r0.citations) } := by
        unfold rfFun
        rw [if_pos hcont]
      rw [hval]
      unfold rootOk
      have hdms : directMemberSum
          ((applyAsg s (asgOf s content)).map
            (rfFun (applyAsg s (asgOf s content)) (leadersOf s content))) r0.id =
          directMemberSum (applyAsg s (asgOf s content)) r0.id :=
        dms_map_eq _ _ _ (fun l _ => rfFun_gc _ _ l)
      dsimp only
      rw [hdms]
      exact congrArg some (Int.add_comm _ _)
  · intro s id1 id2 out hnd hpos hupd hpre
    rcases h1 : s.find? (fun l => l.id == id1) with _ | loc1
    · unfold update_group at hupd
      rw [h1] at hupd
      exact Option.noConfusion hupd
    · rcases h2 : s.find? (fun l => l.id == id2) with _ | loc2
      · unfold update_group at hupd
        rw [h1, h2] at hupd
        exact Option.noConfusion hupd
      · have hout := update_group_eq s id1 id2 loc1 loc2 h1 h2
          (if loc1.citations < loc2.citations then loc1 else loc2)
          (if loc1.citations < loc2.citations then loc2 else loc1) rfl rfl
        rw [hupd] at hout
        obtain rfl := Option.some.inj hout
        have hfmem : (if loc1.citations < loc2.citations then loc1 else loc2) ∈ s := by
          by_cases hc : loc1.citations < loc2.citations
          · rw [if_pos hc]; exact List.mem_of_find?_eq_some h1
          · rw [if_neg hc]; exact List.mem_of_find?_eq_some h2
        exact merge_preserves s _ _ hnd hpos hfmem hpre

theorem c1_root_equation_witness :
    rootOk (load_groups c1DemoPre "A-City, B-City").s ⟨1, "A", "City", 10, some 15, none⟩ ∧
    rootOk c1MergedOut ⟨3, "C", "City", 20, some 35, none⟩ := by
  constructor
  · exact c1_root_equation.1 c1DemoPre "A-City, B-City" 1
      ⟨1, "A", "City", 10, some 15, none⟩ (by decide) (by decide)
  · exact c1_root_equation.2 c1DemoPre 1 3 (c1MergedOut, 1, 3, false)
      (by decide) (by decide) (by decide) (by simp only [rootOk]; decide)
      ⟨3, "C", "City", 20, some 35, none⟩ (by decide) (by decide)

end GeoEntities
